import Mathlib

/-!
Shallow embedding of the cross-posting pipeline of `tripsnek/twitter-bluesky-mirror`
(files `src/apps/bsky-mirrors/src/services/bluesky-service.ts` and
`src/apps/bsky-mirrors/src/cross-post-agent.ts`), together with theorems settling
the specification claims about it.

Text is modelled as `List Char` (JavaScript strings restricted to the characters the
pipeline actually manipulates; `\s` is modelled by the ASCII whitespace characters,
`toLowerCase` by `Char.toLower`, which agree with JavaScript on ASCII input).
Loops of the TypeScript source are embedded as structural recursions; where a source
loop is not structurally recursive (the `while (length > 0) pop()` loop), an explicit
fuel argument bounded by the list length is used so that every definition is
executable by the kernel.
-/

namespace Mirror

/-- Whitespace test modelling the JavaScript `\s` character class, restricted to the
ASCII whitespace characters (space, tab, newline, carriage return, vertical tab,
form feed). -/
def isWs (c : Char) : Bool :=
  c == ' ' || c == '\t' || c == '\n' || c == '\r' || c == '\x0b' || c == '\x0c'

/-- Sentence-terminator test: the character class `[.!?]` of the sentence regex in
`splitTextIntoChunks`. -/
def isTerm (c : Char) : Bool :=
  c == '.' || c == '!' || c == '?'

/-- Test whether a URL match of the regex `https?:\/\/\S+` starts at the head of the
list: a literal `http://` or `https://` prefix followed by at least one
non-whitespace character. -/
def urlAt (l : List Char) : Bool :=
  (List.isPrefixOf "http://".toList l &&
    (match l.drop 7 with
     | [] => false
     | d :: _ => !isWs d)) ||
  (List.isPrefixOf "https://".toList l &&
    (match l.drop 8 with
     | [] => false
     | d :: _ => !isWs d))

mutual

/-- Embedding of `text.replace(/https?:\/\/\S+/g, '')` from
`isDuplicateWithRecentBlueskyPosts` (bluesky-service.ts line 90): scan left to
right; at a position where a URL match starts, delete the whole maximal run of
non-whitespace characters (the greedy `\S+` together with the scheme prefix). -/
def stripUrls : List Char → List Char
  | [] => []
  | c :: rest =>
    if urlAt (c :: rest) then stripUrlsSkip rest
    else c :: stripUrls rest

/-- Deletion of the rest of the non-whitespace run of a URL match. The first
character of the match (`h`) was already discarded by `stripUrls`. -/
def stripUrlsSkip : List Char → List Char
  | [] => []
  | c :: rest =>
    if isWs c then c :: stripUrls rest
    else stripUrlsSkip rest

end

mutual

/-- Embedding of `.replace(/\s+/g, ' ')` (bluesky-service.ts line 91): every maximal
run of whitespace becomes a single space. -/
def collapseWs : List Char → List Char
  | [] => []
  | c :: rest =>
    if isWs c then ' ' :: collapseWsSkip rest
    else c :: collapseWs rest

/-- Skipping the remainder of a whitespace run already replaced by one space. -/
def collapseWsSkip : List Char → List Char
  | [] => []
  | c :: rest =>
    if isWs c then collapseWsSkip rest
    else c :: collapseWs rest

end

/-- Embedding of `String.prototype.trim`: remove leading and trailing whitespace. -/
def trimChars (l : List Char) : List Char :=
  ((l.dropWhile isWs).reverse.dropWhile isWs).reverse

/-- Normalization applied to both the queried text and each cached entry in
`isDuplicateWithRecentBlueskyPosts` (bluesky-service.ts lines 89-103):
strip URLs, collapse whitespace, trim, lowercase, take the first 70 characters. -/
def cleanForComparison (text : List Char) : List Char :=
  ((trimChars (collapseWs (stripUrls text))).map Char.toLower).take 70

/-- Embedding of `BlueskyService.isDuplicateWithRecentBlueskyPosts`
(bluesky-service.ts lines 79-111) for one account: the `recentPosts` map entry for
the account is the `Option` argument (`none` when the map has no entry, in which
case the method returns `false`); otherwise the early-returning for-loop over the
cached entries is the `List.any`. -/
def isDuplicateWithRecentBlueskyPosts
    (text : List Char) (recentPosts : Option (List (List Char))) : Bool :=
  match recentPosts with
  | none => false
  | some posts =>
    posts.any (fun existingPost => cleanForComparison existingPost == cleanForComparison text)

/-- Fuel-indexed embedding of the loop `while (recentPosts.length > 0) recentPosts.pop()`
(bluesky-service.ts line 132): each iteration removes the last element while the
list is nonempty. The fuel only makes the recursion structural; `popAllLoop` below
supplies fuel equal to the list length, which the loop never exceeds. -/
def popAllLoopFuel : Nat → List (List Char) → List (List Char)
  | 0, l => l
  | fuel + 1, l => if l.isEmpty then l else popAllLoopFuel fuel l.dropLast

/-- The `while (recentPosts.length > 0) recentPosts.pop()` loop of
bluesky-service.ts line 132. -/
def popAllLoop (l : List (List Char)) : List (List Char) :=
  popAllLoopFuel l.length l

/-- Result of one `postTweet` call: whether a destination post was created, and the
recent-posts cache entry for the account afterwards. -/
structure PostTweetResult where
  createdPost : Bool
  cache : Option (List (List Char))
deriving DecidableEq, Repr

/-- Embedding of `BlueskyService.postTweet` (bluesky-service.ts lines 113-134) for
one account with a logged-in agent. The network call
`new BlueskyPoster(bskyAgent).createPost(tweet)` is abstracted by the Boolean
`createPostOk`: `true` means the destination accepted the post, `false` means it
threw, which propagates out of `postTweet` (modelled as `Except.error`). On the
duplicate path the method logs and returns before any of that. After a successful
post, lines 128-133 run: `unshift` the raw tweet text, then pop while nonempty. -/
def postTweet (text : List Char) (cache : Option (List (List Char)))
    (createPostOk : Bool) : Except Unit PostTweetResult :=
  if isDuplicateWithRecentBlueskyPosts text cache then
    .ok { createdPost := false, cache := cache }
  else if createPostOk then
    .ok { createdPost := true,
          cache := match cache with
                   | none => none
                   | some recentPosts => some (popAllLoop (text :: recentPosts)) }
  else
    .error ()

/-- The fields of the `TweetData` interface (types/index.ts) that the agent logic
reads: the platform-scoped identifier and the body text. The media, timestamp and
account fields do not influence the diff, dedup, ordering or persistence logic
modelled here; the mutable `postedToBluesky` flag is carried by `ItemRecord`. -/
structure TweetData where
  id : String
  text : List Char
deriving DecidableEq, Repr

/-- Embedding of `CrossPostAgent.findNewTweets` (cross-post-agent.ts lines 22-34)
for one source account: the `lastCheckedTweets` map entry is the `Option` argument
(`none` before the first fetch, initialized to `[]` by lines 23-25). Returns the
new tweets together with the replaced snapshot-cache entry (line 32 stores the full
`latestTweets`). -/
def findNewTweets (latestTweets : List TweetData) (lastCheckedOpt : Option (List TweetData)) :
    List TweetData × List TweetData :=
  let lastChecked := lastCheckedOpt.getD []
  (latestTweets.filter (fun tweet => !(lastChecked.any (fun cached => cached.id == tweet.id))),
   latestTweets)

/-- Embedding of the dedup-filter loop of `CrossPostAgent.checkAndPost`
(cross-post-agent.ts lines 45-59): scan the new tweets in order; on the first one
whose text the Duplicate Guard reports as a duplicate, `break` out of the loop;
otherwise push the tweet onto `toPost`. The guard's cache entry is fixed for the
whole scan (nothing mutates it inside this loop); the inner `try/catch` never fires
in the model because `isDuplicateWithRecentBlueskyPosts` is total. -/
def collectToPost (cache : Option (List (List Char))) : List TweetData → List TweetData
  | [] => []
  | tweet :: rest =>
    if isDuplicateWithRecentBlueskyPosts tweet.text cache then []
    else tweet :: collectToPost cache rest

/-- One persisted item record: the tweet together with the `postedToBluesky` flag
set by the posting loop before `StorageService.saveTweet` is called. -/
structure ItemRecord where
  tweet : TweetData
  postedToBluesky : Bool
deriving DecidableEq, Repr

/-- Result of the posting loop: the records persisted by `saveTweet` in order, the
final recent-posts cache entry, and whether an uncaught `saveTweet` error aborted
the loop (escaping to the cycle-level `catch` of `checkAndPost`). -/
structure PostLoopResult where
  persisted : List ItemRecord
  cache : Option (List (List Char))
  aborted : Bool
deriving DecidableEq, Repr

/-- Embedding of the posting loop of `CrossPostAgent.checkAndPost`
(cross-post-agent.ts lines 65-74). `postOk t` abstracts whether the destination
network call inside `postTweet` succeeds for tweet `t`, `saveOk t` whether
`StorageService.saveTweet` succeeds for it. The `try/catch` around `postTweet`
sets `postedToBluesky` to `true` on success and `false` on failure and always
continues; `saveTweet` sits after the `catch`, so a persistence failure propagates
out of the loop to the cycle-level handler: the record being saved and all later
tweets are neither persisted nor attempted. -/
def postLoop (postOk saveOk : TweetData → Bool) (cache : Option (List (List Char))) :
    List TweetData → PostLoopResult
  | [] => { persisted := [], cache := cache, aborted := false }
  | tweet :: rest =>
    let step : Bool × Option (List (List Char)) :=
      match postTweet tweet.text cache (postOk tweet) with
      | .ok res => (true, res.cache)
      | .error _ => (false, cache)
    if saveOk tweet then
      let r := postLoop postOk saveOk step.2 rest
      { persisted := { tweet := tweet, postedToBluesky := step.1 } :: r.persisted,
        cache := r.cache, aborted := r.aborted }
    else
      { persisted := [], cache := step.2, aborted := true }

/-- The candidate list collected by one `checkAndPost` cycle before reversal
(cross-post-agent.ts lines 41-59): diff the latest fetch against the snapshot
cache, then dedup-filter the new tweets. -/
def checkAndPostCandidates (latestTweets : List TweetData)
    (lastCheckedOpt : Option (List TweetData)) (cache : Option (List (List Char))) :
    List TweetData :=
  collectToPost cache (findNewTweets latestTweets lastCheckedOpt).1

/-- The order in which one `checkAndPost` cycle submits tweets to the destination:
`toPost.reverse()` at line 62 followed by the sequential for-loop at line 65, so
position in this list is submission order. -/
def checkAndPostOrder (latestTweets : List TweetData)
    (lastCheckedOpt : Option (List TweetData)) (cache : Option (List (List Char))) :
    List TweetData :=
  (checkAndPostCandidates latestTweets lastCheckedOpt cache).reverse

/-- The `CHAR_LIMIT` constant of `BlueskyPoster` (bluesky-service.ts line 222). -/
def CHAR_LIMIT : Nat := 299

/-- The `SAFE_LIMIT` of `splitTextIntoChunks` (bluesky-service.ts line 227):
`CHAR_LIMIT - 20`, reserving room for thread markers. -/
def SAFE_LIMIT : Nat := CHAR_LIMIT - 20

mutual

/-- Embedding of `text.match(/[^.!?]+[.!?]+/g)` (bluesky-service.ts line 234),
scanning for the start of a match: positions holding a terminator cannot start
`[^.!?]+`, so the scanner advances past them. Returns the list of matches
(`[]` when the regex returns `null`). -/
def sentencesSkip : List Char → List (List Char)
  | [] => []
  | c :: rest =>
    if isTerm c then sentencesSkip rest
    else sentencesBody [c] rest

/-- Accumulating the greedy `[^.!?]+` part of a sentence match (characters held in
reverse). Reaching the end of the text without a terminator means no match starts
anywhere in this run: the unterminated tail is not part of any match. -/
def sentencesBody (body : List Char) : List Char → List (List Char)
  | [] => []
  | c :: rest =>
    if isTerm c then sentencesTerms body [c] rest
    else sentencesBody (c :: body) rest

/-- Accumulating the greedy `[.!?]+` part of a sentence match (characters held in
reverse). A non-terminator ends the match; the global regex resumes scanning at
that character, which can itself start the next match. -/
def sentencesTerms (body terms : List Char) : List Char → List (List Char)
  | [] => [body.reverse ++ terms.reverse]
  | c :: rest =>
    if isTerm c then sentencesTerms body (c :: terms) rest
    else (body.reverse ++ terms.reverse) :: sentencesBody [c] rest

end

/-- Embedding of `text.match(/[^.!?]+[.!?]+/g) || [text]` (bluesky-service.ts line
234): when the regex finds no match it returns `null` and the whole text is used as
the single sentence. -/
def sentencesOf (text : List Char) : List (List Char) :=
  let s := sentencesSkip text
  if s.isEmpty then [text] else s

mutual

/-- Embedding of `sentence.split(/\s+/)` (bluesky-service.ts line 248), with the
current segment held in reverse: each maximal whitespace run is one separator, and
JavaScript `split` yields an empty leading segment for a separator at position 0
and an empty trailing segment for a separator at the end. -/
def splitWsGo (cur : List Char) : List Char → List (List Char)
  | [] => [cur.reverse]
  | c :: rest =>
    if isWs c then cur.reverse :: splitWsSkip rest
    else splitWsGo (c :: cur) rest

/-- Skipping the remainder of a whitespace separator run of `splitWsGo`. -/
def splitWsSkip : List Char → List (List Char)
  | [] => [[]]
  | c :: rest =>
    if isWs c then splitWsSkip rest
    else splitWsGo [c] rest

end

/-- Embedding of the inner word loop of `splitTextIntoChunks` (bluesky-service.ts
lines 251-260): greedily accumulate words into `currentChunk`; the length test
always counts the joining space (`currentChunk + ' ' + word`) while the update adds
the space only when `currentChunk` is nonempty; on overflow push the trimmed
current chunk (when nonempty) and restart from the word. Returns the accumulated
chunk list and the final `currentChunk`. -/
def wordLoop (currentChunk : List Char) (chunks : List (List Char)) :
    List (List Char) → List (List Char) × List Char
  | [] => (chunks, currentChunk)
  | word :: rest =>
    if currentChunk.length + 1 + word.length ≤ SAFE_LIMIT then
      wordLoop (if currentChunk.isEmpty then word else currentChunk ++ ' ' :: word) chunks rest
    else
      wordLoop word
        (if currentChunk.isEmpty then chunks else chunks ++ [trimChars currentChunk]) rest

/-- Embedding of the outer sentence loop of `splitTextIntoChunks` (bluesky-service.ts
lines 237-265): greedily accumulate sentences while `currentChunk + sentence` fits;
on overflow push the trimmed current chunk (when nonempty), then either word-split
the sentence (when it alone exceeds the limit; the word loop's final chunk carries
into the next iteration) or restart from the sentence. Returns the accumulated
chunk list and the final `currentChunk`. -/
def sentenceLoop (currentChunk : List Char) (chunks : List (List Char)) :
    List (List Char) → List (List Char) × List Char
  | [] => (chunks, currentChunk)
  | sentence :: rest =>
    if currentChunk.length + sentence.length ≤ SAFE_LIMIT then
      sentenceLoop (currentChunk ++ sentence) chunks rest
    else
      let chunks1 := if currentChunk.isEmpty then chunks else chunks ++ [trimChars currentChunk]
      if SAFE_LIMIT < sentence.length then
        let r := wordLoop [] chunks1 (splitWsGo [] sentence)
        sentenceLoop r.2 r.1 rest
      else
        sentenceLoop sentence chunks1 rest

/-- Embedding of `BlueskyPoster.splitTextIntoChunks` (bluesky-service.ts lines
224-280): texts shorter than `SAFE_LIMIT` are returned whole; otherwise the
sentence/word loops run, the final nonempty `currentChunk` is pushed trimmed
(lines 268-270), and the final `map` truncates any chunk still longer than
`SAFE_LIMIT` (lines 273-279). -/
def splitTextIntoChunks (text : List Char) : List (List Char) :=
  if text.length < SAFE_LIMIT then [text]
  else
    (if (sentenceLoop [] [] (sentencesOf text)).2.isEmpty then
        (sentenceLoop [] [] (sentencesOf text)).1
      else
        (sentenceLoop [] [] (sentencesOf text)).1 ++
          [trimChars (sentenceLoop [] [] (sentencesOf text)).2]).map
      (fun chunk => if SAFE_LIMIT < chunk.length then chunk.take SAFE_LIMIT else chunk)

/-- Destination post reference, as returned by `agent.post` and used for reply
linkage: `{ uri, cid }` (bluesky-service.ts lines 505-507). -/
structure PostRef where
  uri : String
  cid : String
deriving DecidableEq, Repr

/-- The `reply` field built by `createSinglePost` (bluesky-service.ts lines
300-305): `root = threadInfo.root || threadInfo.parent`, `parent =
threadInfo.parent`. -/
structure ReplyRef where
  root : PostRef
  parent : PostRef
deriving DecidableEq, Repr

/-- One destination post request as assembled by `createSinglePost`: the text (with
thread marker), the optional media embed (abstract type `E`), and the optional
reply reference. -/
structure PostRequest (E : Type) where
  text : List Char
  embed : Option E
  reply : Option ReplyRef
deriving DecidableEq, Repr

/-- The thread marker prepended to chunk `i` (zero-based) of an `n`-chunk thread:
`` `${i + 1}/${textChunks.length} ` `` (bluesky-service.ts line 485). -/
def threadMarker (i n : Nat) : List Char :=
  (toString (i + 1) ++ "/" ++ toString n ++ " ").toList

/-- Embedding of the thread-creation loop of `BlueskyPoster.createPost`
(bluesky-service.ts lines 476-513). The destination's response to the `i`-th
submitted post is abstracted by `refs i`. State per iteration: the loop index `i`,
`rootRef` (set to the first post's reference after iteration 0) and `parentRef`
(the previous post's reference). Iteration `i` attaches the media embed only when
`i = 0`, prepends the thread marker, and builds `threadInfo` only when `i > 0` and
a parent exists, with `root = rootRef.getD parent` mirroring
`threadInfo.root || threadInfo.parent` in `createSinglePost`. -/
def buildThreadPosts (E : Type) (refs : Nat → PostRef) (embed : Option E) (n : Nat) :
    Nat → Option PostRef → Option PostRef → List (List Char) → List (PostRequest E)
  | _, _, _, [] => []
  | i, rootRef, parentRef, chunk :: rest =>
    let postEmbed := if i == 0 then embed else none
    let threadInfo : Option ReplyRef :=
      if 0 < i then
        match parentRef with
        | some p => some { root := rootRef.getD p, parent := p }
        | none => none
      else none
    let post := refs i
    { text := threadMarker i n ++ chunk, embed := postEmbed, reply := threadInfo } ::
      buildThreadPosts E refs embed n (i + 1) (if i == 0 then some post else rootRef)
        (some post) rest

/-- The sequence of post requests submitted by the thread branch of
`BlueskyPoster.createPost` (taken when `textChunks.length > 1`), in submission
order, starting from `i = 0` with no root or parent reference yet. -/
def createPostThread (E : Type) (refs : Nat → PostRef) (embed : Option E)
    (chunks : List (List Char)) : List (PostRequest E) :=
  buildThreadPosts E refs embed chunks.length 0 none none chunks

/-! Theorems settling the claims. -/

/-- C7: the new-items result of the diff is exactly the items of the latest fetch
whose identifier does not occur in the previous Snapshot Cache for the account
(the empty list serving as the snapshot before the first fetch), in fetch order,
and after the diff the Snapshot Cache equals the full latest fetch. -/
theorem c7_findNewTweets_diff (latest : List TweetData) (prevOpt : Option (List TweetData)) :
    (findNewTweets latest prevOpt).2 = latest ∧
    (findNewTweets latest prevOpt).1.Sublist latest ∧
    ∀ t, (t ∈ (findNewTweets latest prevOpt).1 ↔
      t ∈ latest ∧ ∀ c ∈ prevOpt.getD [], ¬ c.id = t.id) := by
  refine ⟨rfl, List.filter_sublist _, fun t => ?_⟩
  simp [findNewTweets, List.mem_filter, List.any_eq_true]

/-- Witness for C7: the spec's diff example, snapshot `[{id 1}, {id 2}]` against
fetch `[{id 1}, {id 2}, {id 3}]`. -/
theorem c7_findNewTweets_diff_witness :
    (findNewTweets [⟨"1", []⟩, ⟨"2", []⟩, ⟨"3", []⟩] (some [⟨"1", []⟩, ⟨"2", []⟩])).2 =
      [⟨"1", []⟩, ⟨"2", []⟩, ⟨"3", []⟩] ∧
    (findNewTweets [⟨"1", []⟩, ⟨"2", []⟩, ⟨"3", []⟩]
        (some [⟨"1", []⟩, ⟨"2", []⟩])).1.Sublist [⟨"1", []⟩, ⟨"2", []⟩, ⟨"3", []⟩] ∧
    ∀ t, (t ∈ (findNewTweets [⟨"1", []⟩, ⟨"2", []⟩, ⟨"3", []⟩]
        (some [⟨"1", []⟩, ⟨"2", []⟩])).1 ↔
      t ∈ [⟨"1", []⟩, ⟨"2", []⟩, ⟨"3", []⟩] ∧
        ∀ c ∈ (some [⟨"1", []⟩, ⟨"2", []⟩] : Option (List TweetData)).getD [],
          ¬ c.id = t.id) :=
  c7_findNewTweets_diff [⟨"1", []⟩, ⟨"2", []⟩, ⟨"3", []⟩] (some [⟨"1", []⟩, ⟨"2", []⟩])

/-- C5: the dedup filter collects exactly the scanned prefix before the first
duplicate: every collected tweet is reported non-duplicate, and either no duplicate
was met (the whole batch is collected) or the batch splits as the collected prefix,
then the first duplicate, then the older items never scanned. -/
theorem c5_collectToPost_stops_at_first_duplicate (cache : Option (List (List Char)))
    (l : List TweetData) :
    (∀ t ∈ collectToPost cache l, isDuplicateWithRecentBlueskyPosts t.text cache = false) ∧
    (collectToPost cache l = l ∨
      ∃ d rest, l = collectToPost cache l ++ d :: rest ∧
        isDuplicateWithRecentBlueskyPosts d.text cache = true) := by
  induction l with
  | nil => exact ⟨by simp [collectToPost], Or.inl rfl⟩
  | cons t rest ih =>
    by_cases h : isDuplicateWithRecentBlueskyPosts t.text cache = true
    · refine ⟨by simp [collectToPost, h], Or.inr ⟨t, rest, by simp [collectToPost, h], h⟩⟩
    · have h' : isDuplicateWithRecentBlueskyPosts t.text cache = false := by
        simpa using h
      refine ⟨?_, ?_⟩
      · intro u hu
        rw [collectToPost, if_neg (by simp [h'])] at hu
        rcases List.mem_cons.mp hu with rfl | hu
        · exact h'
        · exact ih.1 u hu
      · rcases ih.2 with heq | ⟨d, r', hr, hd⟩
        · exact Or.inl (by rw [collectToPost, if_neg (by simp [h']), heq])
        · refine Or.inr ⟨d, r', ?_, hd⟩
          rw [collectToPost, if_neg (by simp [h'])]
          simpa using hr

/-- Witness for C5: the spec's early-stop example — new items
`[{id 3, "dup"}, {id 2, "new"}]` newest-first with `"dup"` already cached at the
destination; the collected candidate set is empty. -/
theorem c5_collectToPost_witness :
    (∀ t ∈ collectToPost (some ["dup".toList]) [⟨"3", "dup".toList⟩, ⟨"2", "new".toList⟩],
      isDuplicateWithRecentBlueskyPosts t.text (some ["dup".toList]) = false) ∧
    (collectToPost (some ["dup".toList]) [⟨"3", "dup".toList⟩, ⟨"2", "new".toList⟩] =
        [⟨"3", "dup".toList⟩, ⟨"2", "new".toList⟩] ∨
      ∃ d rest, [⟨"3", "dup".toList⟩, ⟨"2", "new".toList⟩] =
          collectToPost (some ["dup".toList]) [⟨"3", "dup".toList⟩, ⟨"2", "new".toList⟩] ++
            d :: rest ∧
        isDuplicateWithRecentBlueskyPosts d.text (some ["dup".toList]) = true) :=
  c5_collectToPost_stops_at_first_duplicate (some ["dup".toList])
    [⟨"3", "dup".toList⟩, ⟨"2", "new".toList⟩]

/-- C6: the cycle submits the collected candidates in reverse: for candidate
positions `i < j` in the newest-first candidate list (so the tweet at `j` was
published before the tweet at `i`), the tweet at `j` occupies a strictly earlier
position in the submission order than the tweet at `i`. -/
theorem c6_older_candidates_posted_first (latest : List TweetData)
    (prevOpt : Option (List TweetData)) (cache : Option (List (List Char)))
    (i j : Nat) (hij : i < j)
    (hj : j < (checkAndPostCandidates latest prevOpt cache).length) :
    (checkAndPostOrder latest prevOpt cache)[(checkAndPostCandidates latest prevOpt cache).length - 1 - j]? =
      (checkAndPostCandidates latest prevOpt cache)[j]? ∧
    (checkAndPostOrder latest prevOpt cache)[(checkAndPostCandidates latest prevOpt cache).length - 1 - i]? =
      (checkAndPostCandidates latest prevOpt cache)[i]? ∧
    (checkAndPostCandidates latest prevOpt cache).length - 1 - j <
      (checkAndPostCandidates latest prevOpt cache).length - 1 - i := by
  have hi : i < (checkAndPostCandidates latest prevOpt cache).length := lt_trans hij hj
  refine ⟨?_, ?_, by omega⟩
  · rw [checkAndPostOrder, List.getElem?_reverse (by omega)]
    congr 1
    omega
  · rw [checkAndPostOrder, List.getElem?_reverse (by omega)]
    congr 1
    omega

/-- Witness for C6: two fresh non-duplicate tweets fetched newest-first; the older
one (candidate position 1) is submitted at position 0, before the newer one. -/
theorem c6_older_candidates_posted_first_witness :
    0 < 1 ∧ 1 < (checkAndPostCandidates [⟨"2", "b".toList⟩, ⟨"1", "a".toList⟩] none none).length ∧
    ((checkAndPostOrder [⟨"2", "b".toList⟩, ⟨"1", "a".toList⟩] none none)[(checkAndPostCandidates [⟨"2", "b".toList⟩, ⟨"1", "a".toList⟩] none none).length - 1 - 1]? =
      (checkAndPostCandidates [⟨"2", "b".toList⟩, ⟨"1", "a".toList⟩] none none)[1]? ∧
    (checkAndPostOrder [⟨"2", "b".toList⟩, ⟨"1", "a".toList⟩] none none)[(checkAndPostCandidates [⟨"2", "b".toList⟩, ⟨"1", "a".toList⟩] none none).length - 1 - 0]? =
      (checkAndPostCandidates [⟨"2", "b".toList⟩, ⟨"1", "a".toList⟩] none none)[0]? ∧
    (checkAndPostCandidates [⟨"2", "b".toList⟩, ⟨"1", "a".toList⟩] none none).length - 1 - 1 <
      (checkAndPostCandidates [⟨"2", "b".toList⟩, ⟨"1", "a".toList⟩] none none).length - 1 - 0) :=
  ⟨by decide, by decide,
    c6_older_candidates_posted_first [⟨"2", "b".toList⟩, ⟨"1", "a".toList⟩] none none 0 1
      (by decide) (by decide)⟩

/-- C9: every chunk returned by `splitTextIntoChunks` has length at most
`CHAR_LIMIT - 20 = 279`: short texts are returned whole below the limit, and the
final `map` truncates anything longer. -/
theorem c9_chunks_within_safe_budget (text chunk : List Char)
    (h : chunk ∈ splitTextIntoChunks text) :
    chunk.length ≤ CHAR_LIMIT - 20 ∧ CHAR_LIMIT - 20 = 279 := by
  refine ⟨?_, rfl⟩
  rw [splitTextIntoChunks] at h
  split at h
  · next hlt =>
    rcases List.mem_singleton.mp h with rfl
    simp only [SAFE_LIMIT] at hlt
    omega
  · rcases List.mem_map.mp h with ⟨x, _, rfl⟩
    split
    · next hgt =>
      simp only [List.length_take, CHAR_LIMIT, SAFE_LIMIT]
      omega
    · next hle =>
      simp only [CHAR_LIMIT, SAFE_LIMIT] at *
      omega

/-- Witness for C9 at a concrete input. -/
theorem c9_chunks_within_safe_budget_witness :
    "hello.".toList ∈ splitTextIntoChunks "hello.".toList ∧
    ("hello.".toList.length ≤ CHAR_LIMIT - 20 ∧ CHAR_LIMIT - 20 = 279) :=
  ⟨by decide, c9_chunks_within_safe_budget "hello.".toList "hello.".toList (by decide)⟩

/-- C1 (code bug): evaluation at the failing input. Recording a successful post
runs `recentPosts.unshift(tweet.text)` followed by
`while (recentPosts.length > 0) recentPosts.pop()`, which empties the cache, so an
immediate duplicate check for the same text returns `false`, not `true`. The
insensitivity of the comparison itself to URL substrings and letter case does hold,
shown by the third conjunct. -/
theorem c1_recordPost_not_reflexive :
    postTweet "Hello World".toList (some ["an older destination post".toList]) true =
      .ok { createdPost := true, cache := some [] } ∧
    isDuplicateWithRecentBlueskyPosts "Hello World".toList (some []) = false ∧
    isDuplicateWithRecentBlueskyPosts "HELLO https://t.co/abc world".toList
      (some ["Hello world https://example.com/x".toList]) = true := by
  refine ⟨by rfl, by decide, by decide⟩

/-- C3 (code bug): evaluation at the failing input. With a cache holding two
entries, recording a third text leaves the cache empty: the just-recorded text is
not at the front (the cache has no front), and both older entries — not just the
single oldest — are evicted. -/
theorem c3_recordPost_empties_cache :
    postTweet "c".toList (some ["b".toList, "a".toList]) true =
      .ok { createdPost := true, cache := some [] } ∧
    ([] : List (List Char)).head? ≠ some "c".toList := by
  refine ⟨by rfl, by decide⟩

/-- C4 counterexample: a persistence failure is not caught at item granularity.
With two candidates whose posts both succeed but whose first `saveTweet` throws,
the loop aborts: nothing is persisted and the second candidate is never attempted,
refuting "a persistence error for one item still allows every later candidate in
the batch to be attempted and persisted". -/
theorem c4_persistence_failure_aborts_batch :
    postLoop (fun _ => true) (fun t => t.id != "1") none
        [⟨"1", "first".toList⟩, ⟨"2", "second".toList⟩] =
      { persisted := [], cache := none, aborted := true } := by
  decide

/-- The pop-while-nonempty loop always empties the list once the fuel covers the
list length: each iteration drops the last element. -/
theorem popAllLoopFuel_eq_nil :
    ∀ (n : Nat) (l : List (List Char)), l.length ≤ n → popAllLoopFuel n l = [] := by
  intro n
  induction n with
  | zero =>
    intro l hl
    have : l = [] := List.eq_nil_of_length_eq_zero (Nat.le_zero.mp hl)
    subst this
    rfl
  | succ n ih =>
    intro l hl
    rw [popAllLoopFuel]
    by_cases h : l.isEmpty = true
    · rw [if_pos h]
      exact List.isEmpty_iff.mp h
    · rw [if_neg h]
      refine ih _ ?_
      have hne : l ≠ [] := by simpa [List.isEmpty_iff] using h
      have hlen : l.length ≠ 0 := by simpa [List.length_eq_zero] using hne
      rw [List.length_dropLast]
      omega

/-- The `while (recentPosts.length > 0) recentPosts.pop()` loop leaves the cache
entry empty. -/
theorem popAllLoop_eq_nil (l : List (List Char)) : popAllLoop l = [] :=
  popAllLoopFuel_eq_nil l.length l (le_refl _)

/-- A missing or emptied cache entry reports no duplicates. -/
theorem isDup_of_flushed (u : List Char) (c : Option (List (List Char)))
    (h : c = none ∨ c = some []) : isDuplicateWithRecentBlueskyPosts u c = false := by
  rcases h with rfl | rfl <;> rfl

/-- Every tweet collected by the dedup filter was reported non-duplicate against
the cache the filter scanned with. -/
theorem collectToPost_not_dup (cache : Option (List (List Char))) (l : List TweetData) :
    ∀ t ∈ collectToPost cache l,
      isDuplicateWithRecentBlueskyPosts t.text cache = false := by
  induction l with
  | nil => simp [collectToPost]
  | cons t rest ih =>
    by_cases h : isDuplicateWithRecentBlueskyPosts t.text cache = true
    · simp [collectToPost, h]
    · have h' : isDuplicateWithRecentBlueskyPosts t.text cache = false := by simpa using h
      intro u hu
      rw [collectToPost, if_neg (by simp [h'])] at hu
      rcases List.mem_cons.mp hu with rfl | hu
      · exact h'
      · exact ih u hu

/-- Records produced by the posting loop when every `saveTweet` succeeds and no
input tweet is a duplicate of the starting cache: each tweet is persisted, in
order, with `postedToBluesky` exactly the outcome of its destination post — a
failed post is recorded as failed and the loop continues. The cache threading is
handled by the fact that after any successful post the cache entry is missing or
empty, so later duplicate checks stay `false`. -/
theorem postLoop_records (postOk saveOk : TweetData → Bool) :
    ∀ (l : List TweetData) (cache : Option (List (List Char))),
      (∀ t ∈ l, saveOk t = true) →
      (∀ t ∈ l, isDuplicateWithRecentBlueskyPosts t.text cache = false) →
      (postLoop postOk saveOk cache l).persisted =
        l.map (fun t => { tweet := t, postedToBluesky := postOk t }) ∧
      (postLoop postOk saveOk cache l).aborted = false := by
  intro l
  induction l with
  | nil =>
    intro cache _ _
    exact ⟨rfl, rfl⟩
  | cons t rest ih =>
    intro cache hsave hnd
    have ht : saveOk t = true := hsave t (List.mem_cons_self t rest)
    have hndt : isDuplicateWithRecentBlueskyPosts t.text cache = false :=
      hnd t (List.mem_cons_self t rest)
    have hsrest : ∀ u ∈ rest, saveOk u = true :=
      fun u hu => hsave u (List.mem_cons_of_mem t hu)
    rw [postLoop, if_pos ht]
    by_cases hop : postOk t = true
    · cases cache with
      | none =>
        have hpost : postTweet t.text none (postOk t) =
            .ok { createdPost := true, cache := none } := by
          simp [postTweet, hndt, hop]
        have ihr := ih none hsrest (fun u _ => isDup_of_flushed u.text _ (Or.inl rfl))
        rw [hpost]
        exact ⟨by simp [ihr.1, hop], by simp [ihr.2]⟩
      | some r =>
        have hpost : postTweet t.text (some r) (postOk t) =
            .ok { createdPost := true, cache := some (popAllLoop (t.text :: r)) } := by
          simp [postTweet, hndt, hop]
        have ihr := ih (some (popAllLoop (t.text :: r))) hsrest
          (fun u _ => isDup_of_flushed u.text _ (Or.inr (by rw [popAllLoop_eq_nil])))
        rw [hpost]
        exact ⟨by simp [ihr.1, hop], by simp [ihr.2]⟩
    · have hop' : postOk t = false := by simpa using hop
      have hpost : postTweet t.text cache (postOk t) = .error () := by
        simp [postTweet, hndt, hop']
      have ihr := ih cache hsrest (fun u hu => hnd u (List.mem_cons_of_mem t hu))
      rw [hpost]
      exact ⟨by simp [ihr.1, hop'], by simp [ihr.2]⟩

/-- C4 as amended: in one cycle's posting phase, when every `saveTweet` succeeds,
every collected candidate is attempted and persisted in order, marked
`postedToBluesky = true` exactly when its destination post succeeded and `false`
when it failed — a post failure does not abort the loop. A persistence failure,
by contrast, escapes to the cycle-level handler and aborts the remaining
candidates (see the counterexample). The no-duplicate side condition of
`postLoop_records` is discharged because the cycle's candidates all passed the
dedup filter against the same cache. -/
theorem c4_post_failures_item_granular (postOk saveOk : TweetData → Bool)
    (latest : List TweetData) (prevOpt : Option (List TweetData))
    (cache : Option (List (List Char)))
    (hsave : ∀ t ∈ checkAndPostOrder latest prevOpt cache, saveOk t = true) :
    (postLoop postOk saveOk cache (checkAndPostOrder latest prevOpt cache)).persisted =
      (checkAndPostOrder latest prevOpt cache).map
        (fun t => { tweet := t, postedToBluesky := postOk t }) ∧
    (postLoop postOk saveOk cache (checkAndPostOrder latest prevOpt cache)).aborted =
      false := by
  refine postLoop_records postOk saveOk _ cache hsave ?_
  intro t ht
  rw [checkAndPostOrder, List.mem_reverse, checkAndPostCandidates] at ht
  exact collectToPost_not_dup cache _ t ht

/-- Witness for the amended C4: two fresh candidates, the older one's destination
post failing — it is persisted marked failed, the newer one succeeds and is
persisted marked succeeded, and the loop does not abort. -/
theorem c4_post_failures_item_granular_witness :
    (∀ t ∈ checkAndPostOrder [⟨"2", "b".toList⟩, ⟨"1", "a".toList⟩] none none,
      (fun (_ : TweetData) => true) t = true) ∧
    ((postLoop (fun t => t.id != "1") (fun _ => true) none
        (checkAndPostOrder [⟨"2", "b".toList⟩, ⟨"1", "a".toList⟩] none none)).persisted =
      (checkAndPostOrder [⟨"2", "b".toList⟩, ⟨"1", "a".toList⟩] none none).map
        (fun t => { tweet := t, postedToBluesky := t.id != "1" }) ∧
    (postLoop (fun t => t.id != "1") (fun _ => true) none
        (checkAndPostOrder [⟨"2", "b".toList⟩, ⟨"1", "a".toList⟩] none none)).aborted =
      false) :=
  ⟨by decide,
    c4_post_failures_item_granular (fun t => t.id != "1") (fun _ => true)
      [⟨"2", "b".toList⟩, ⟨"1", "a".toList⟩] none none (by decide)⟩

/-- C10: when the Duplicate Guard reports the tweet's text as a duplicate,
`postTweet` returns normally with no destination post created and the cache
untouched, whatever the destination network call would have done; the agent loop
therefore marks the item `postedToBluesky = true` and persists it as such,
indistinguishable from a successful post. -/
theorem c10_duplicate_skipped_marked_succeeded (t : TweetData)
    (cache : Option (List (List Char))) (postOk saveOk : TweetData → Bool)
    (rest : List TweetData)
    (h : isDuplicateWithRecentBlueskyPosts t.text cache = true)
    (hs : saveOk t = true) :
    postTweet t.text cache (postOk t) = .ok { createdPost := false, cache := cache } ∧
    ((postLoop postOk saveOk cache (t :: rest)).persisted)[0]? =
      some { tweet := t, postedToBluesky := true } := by
  have hpost : postTweet t.text cache (postOk t) =
      .ok { createdPost := false, cache := cache } := by
    simp [postTweet, h]
  refine ⟨hpost, ?_⟩
  simp [postLoop, hpost, hs]

/-- Witness for C10: a tweet whose text is cached at the destination, with a
destination network call that would fail — the item is still recorded as
successfully posted. -/
theorem c10_duplicate_skipped_marked_succeeded_witness :
    isDuplicateWithRecentBlueskyPosts (⟨"7", "dup".toList⟩ : TweetData).text
      (some ["dup".toList]) = true ∧
    (fun (_ : TweetData) => true) (⟨"7", "dup".toList⟩ : TweetData) = true ∧
    (postTweet (⟨"7", "dup".toList⟩ : TweetData).text (some ["dup".toList])
        ((fun _ => false) (⟨"7", "dup".toList⟩ : TweetData)) =
      .ok { createdPost := false, cache := some ["dup".toList] } ∧
    ((postLoop (fun _ => false) (fun _ => true) (some ["dup".toList])
        [⟨"7", "dup".toList⟩]).persisted)[0]? =
      some { tweet := ⟨"7", "dup".toList⟩, postedToBluesky := true }) :=
  ⟨by decide, by decide,
    c10_duplicate_skipped_marked_succeeded ⟨"7", "dup".toList⟩ (some ["dup".toList])
      (fun _ => false) (fun _ => true) [] (by decide) (by decide)⟩

/-- The thread loop produces one post request per chunk. -/
theorem buildThreadPosts_length (E : Type) (refs : Nat → PostRef) (embed : Option E)
    (n : Nat) :
    ∀ (chunks : List (List Char)) (i : Nat) (rootRef parentRef : Option PostRef),
      (buildThreadPosts E refs embed n i rootRef parentRef chunks).length = chunks.length := by
  intro chunks
  induction chunks with
  | nil => intro i rootRef parentRef; rfl
  | cons c rest ih =>
    intro i rootRef parentRef
    simp [buildThreadPosts, ih]

/-- Specification of the thread loop from iteration `k ≥ 1` onwards, once the root
reference is fixed to `r0` and the parent reference is the response to post `k - 1`:
the request for chunk `m` of the remainder carries no embed and replies to
(root `r0`, parent = the response to the immediately preceding post). -/
theorem buildThreadPosts_tail_spec (E : Type) (refs : Nat → PostRef) (embed : Option E)
    (n : Nat) :
    ∀ (rest : List (List Char)) (k m : Nat) (r0 : PostRef) (chunkm : List Char),
      1 ≤ k → rest[m]? = some chunkm →
      (buildThreadPosts E refs embed n k (some r0) (some (refs (k - 1))) rest)[m]? =
        some { text := threadMarker (k + m) n ++ chunkm, embed := none,
               reply := some { root := r0, parent := refs (k + m - 1) } } := by
  intro rest
  induction rest with
  | nil => intro k m r0 chunkm _ hm; simp at hm
  | cons c rs ih =>
    intro k m r0 chunkm hk hm
    match m with
    | 0 =>
      rw [List.getElem?_cons_zero, Option.some_inj] at hm
      subst hm
      rw [buildThreadPosts]
      have hk0 : (k == 0) = false := by
        simp only [beq_eq_false_iff_ne]; omega
      simp only [hk0, if_false, List.getElem?_cons_zero, Option.some_inj]
      have hklt : 0 < k := hk
      rw [if_pos hklt]
      simp
    | m' + 1 =>
      rw [List.getElem?_cons_succ] at hm
      have hstep := ih (k + 1) m' r0 chunkm (by omega) hm
      rw [buildThreadPosts, List.getElem?_cons_succ]
      have hk0 : (k == 0) = false := by
        simp only [beq_eq_false_iff_ne]; omega
      have h1 : k + (m' + 1) = k + 1 + m' := by omega
      rw [hk0, h1]
      exact hstep

/-- C8: in a multi-chunk thread, one request is submitted per chunk; the first
request carries the media embed and no reply reference (it becomes the thread
root); and every later request `i` carries no embed and a reply reference whose
root is the first post's reference and whose parent is the reference returned for
post `i - 1`. -/
theorem c8_thread_linkage (E : Type) (refs : Nat → PostRef) (embed : Option E)
    (chunks : List (List Char)) (h2 : 2 ≤ chunks.length) :
    (createPostThread E refs embed chunks).length = chunks.length ∧
    (∀ req, (createPostThread E refs embed chunks)[0]? = some req →
      req.embed = embed ∧ req.reply = none) ∧
    (∀ i req, 0 < i → (createPostThread E refs embed chunks)[i]? = some req →
      req.embed = none ∧
        req.reply = some { root := refs 0, parent := refs (i - 1) }) := by
  match chunks, h2 with
  | c :: rest, h2 =>
    refine ⟨buildThreadPosts_length E refs embed _ _ _ _ _, ?_, ?_⟩
    · intro req hreq
      rw [createPostThread, buildThreadPosts, List.getElem?_cons_zero,
        Option.some_inj] at hreq
      subst hreq
      exact ⟨rfl, rfl⟩
    · intro i req hi hreq
      rw [createPostThread, buildThreadPosts] at hreq
      have hi' : i = (i - 1) + 1 := by omega
      rw [hi', List.getElem?_cons_succ] at hreq
      have hbound : i - 1 < rest.length := by
        by_contra hnot
        rw [List.getElem?_eq_none] at hreq
        · exact Option.noConfusion hreq
        · rw [buildThreadPosts_length]
          omega
      have hchunk : rest[i - 1]? = some rest[i - 1] := List.getElem?_eq_getElem hbound
      have htail := buildThreadPosts_tail_spec E refs embed (c :: rest).length rest 1
        (i - 1) (refs 0) rest[i - 1] (le_refl 1) hchunk
      have hsome : some req =
          some { text := threadMarker (1 + (i - 1)) (c :: rest).length ++ rest[i - 1],
                 embed := (none : Option E),
                 reply := some { root := refs 0, parent := refs (1 + (i - 1) - 1) } } :=
        Eq.trans hreq.symm htail
      rw [Option.some_inj] at hsome
      subst hsome
      refine ⟨rfl, ?_⟩
      have : 1 + (i - 1) - 1 = i - 1 := by omega
      rw [this]

/-- The non-whitespace content of a text: the claim's "reproduces the original text
with only whitespace normalization" is formalized as equality of the texts'
non-whitespace characters. -/
def stripWs (l : List Char) : List Char :=
  l.filter (fun c => !isWs c)

theorem stripWs_append (a b : List Char) : stripWs (a ++ b) = stripWs a ++ stripWs b :=
  List.filter_append a b

theorem stripWs_reverse (l : List Char) : stripWs l.reverse = (stripWs l).reverse :=
  List.filter_reverse _ _

theorem stripWs_nil : stripWs [] = [] := rfl

theorem isWs_space : isWs ' ' = true := rfl

theorem stripWs_cons (c : Char) (rest : List Char) :
    stripWs (c :: rest) = if isWs c then stripWs rest else c :: stripWs rest := by
  by_cases h : isWs c = true
  · rw [stripWs, List.filter_cons_of_neg (by simp [h]), if_pos h]
    rfl
  · rw [stripWs, List.filter_cons_of_pos (by simp [h]), if_neg h]
    rfl

theorem stripWs_dropWhile (l : List Char) : stripWs (l.dropWhile isWs) = stripWs l := by
  induction l with
  | nil => rfl
  | cons c rest ih =>
    rw [List.dropWhile_cons]
    by_cases h : isWs c = true
    · simp [h, ih, stripWs_cons]
    · simp [h]

theorem stripWs_trimChars (l : List Char) : stripWs (trimChars l) = stripWs l := by
  rw [trimChars, stripWs_reverse, stripWs_dropWhile, stripWs_reverse,
    stripWs_dropWhile, List.reverse_reverse]

theorem trimChars_length_le (l : List Char) : (trimChars l).length ≤ l.length := by
  rw [trimChars, List.length_reverse]
  calc ((l.dropWhile isWs).reverse.dropWhile isWs).length
      ≤ (l.dropWhile isWs).reverse.length := (List.dropWhile_sublist isWs).length_le
    _ = (l.dropWhile isWs).length := List.length_reverse _
    _ ≤ l.length := (List.dropWhile_sublist isWs).length_le

/-- Joint content preservation of the `split(/\s+/)` embedding, by strong induction
on a length bound: the segments produced carry exactly the non-whitespace content
of the current segment and the remaining input. -/
theorem splitWs_content_aux (N : Nat) :
    ∀ l : List Char, l.length ≤ N →
      (∀ cur, stripWs (splitWsGo cur l).flatten = stripWs cur.reverse ++ stripWs l) ∧
      stripWs (splitWsSkip l).flatten = stripWs l := by
  induction N with
  | zero =>
    intro l hl
    have : l = [] := List.eq_nil_of_length_eq_zero (Nat.le_zero.mp hl)
    subst this
    constructor
    · intro cur
      simp [splitWsGo, stripWs]
    · simp [splitWsSkip, stripWs]
  | succ N ih =>
    intro l hl
    match l with
    | [] =>
      constructor
      · intro cur
        simp [splitWsGo, stripWs]
      · simp [splitWsSkip, stripWs]
    | c :: rest =>
      have hrest : rest.length ≤ N := by
        simp only [List.length_cons] at hl
        omega
      constructor
      · intro cur
        rw [splitWsGo]
        by_cases h : isWs c = true
        · rw [if_pos h, List.flatten_cons, stripWs_append, (ih rest hrest).2]
          simp [stripWs_cons, h]
        · rw [if_neg h, (ih rest hrest).1 (c :: cur)]
          simp [stripWs_cons, stripWs_append, stripWs_nil, h, List.append_assoc]
      · rw [splitWsSkip]
        by_cases h : isWs c = true
        · rw [if_pos h, (ih rest hrest).2]
          simp [stripWs_cons, h]
        · rw [if_neg h, (ih rest hrest).1 [c]]
          simp [stripWs_cons, stripWs_nil, h]

theorem splitWsGo_content (l : List Char) :
    stripWs (splitWsGo [] l).flatten = stripWs l :=
  (splitWs_content_aux l.length l (le_refl _)).1 []

/-- The word loop neither drops nor invents non-whitespace content: the
accumulated chunks plus the final current chunk carry exactly the non-whitespace
of the initial chunks, the initial current chunk and the words. -/
theorem wordLoop_content (words : List (List Char)) :
    ∀ (cur : List Char) (chunks : List (List Char)),
      stripWs ((wordLoop cur chunks words).1.flatten ++ (wordLoop cur chunks words).2) =
        stripWs (chunks.flatten ++ cur ++ words.flatten) := by
  induction words with
  | nil =>
    intro cur chunks
    simp [wordLoop]
  | cons w rest ih =>
    intro cur chunks
    rw [wordLoop]
    by_cases hfit : cur.length + 1 + w.length ≤ SAFE_LIMIT
    · rw [if_pos hfit, ih]
      by_cases hemp : cur.isEmpty = true
      · have : cur = [] := List.isEmpty_iff.mp hemp
        subst this
        simp [stripWs_append, List.append_assoc]
      · rw [if_neg hemp]
        simp [stripWs_append, stripWs_cons, isWs_space, List.append_assoc]
    · rw [if_neg hfit, ih]
      by_cases hemp : cur.isEmpty = true
      · have : cur = [] := List.isEmpty_iff.mp hemp
        subst this
        simp [stripWs_append, List.append_assoc]
      · rw [if_neg hemp]
        simp [stripWs_append, stripWs_trimChars, List.append_assoc]

/-- The sentence loop neither drops nor invents non-whitespace content. -/
theorem sentenceLoop_content (sentences : List (List Char)) :
    ∀ (cur : List Char) (chunks : List (List Char)),
      stripWs ((sentenceLoop cur chunks sentences).1.flatten ++
          (sentenceLoop cur chunks sentences).2) =
        stripWs (chunks.flatten ++ cur ++ sentences.flatten) := by
  induction sentences with
  | nil =>
    intro cur chunks
    simp [sentenceLoop]
  | cons s rest ih =>
    intro cur chunks
    rw [sentenceLoop]
    by_cases hfit : cur.length + s.length ≤ SAFE_LIMIT
    · rw [if_pos hfit, ih]
      simp [stripWs_append, List.append_assoc]
    · rw [if_neg hfit]
      by_cases hlong : SAFE_LIMIT < s.length
      · rw [if_pos hlong, ih]
        have hr := wordLoop_content (splitWsGo [] s) []
          (if cur.isEmpty = true then chunks else chunks ++ [trimChars cur])
        simp only [stripWs_append, List.nil_append, List.append_nil,
          splitWsGo_content] at hr
        simp only [stripWs_append, List.flatten_cons]
        rw [hr]
        by_cases hemp : cur.isEmpty = true
        · have : cur = [] := List.isEmpty_iff.mp hemp
          subst this
          simp [stripWs_append, stripWs_nil, splitWsGo_content, List.append_assoc]
        · rw [if_neg hemp]
          simp [stripWs_append, stripWs_trimChars, splitWsGo_content, List.append_assoc]
      · rw [if_neg hlong, ih]
        by_cases hemp : cur.isEmpty = true
        · have : cur = [] := List.isEmpty_iff.mp hemp
          subst this
          simp [stripWs_append, List.append_assoc]
        · rw [if_neg hemp]
          simp [stripWs_append, stripWs_trimChars, List.append_assoc]

/-- The word loop keeps every accumulated chunk and the current chunk within
`SAFE_LIMIT`, provided each word fits and the loop starts within bounds. -/
theorem wordLoop_bound (words : List (List Char)) :
    ∀ (cur : List Char) (chunks : List (List Char)),
      (∀ w ∈ words, w.length ≤ SAFE_LIMIT) → cur.length ≤ SAFE_LIMIT →
      (∀ ch ∈ chunks, ch.length ≤ SAFE_LIMIT) →
      (∀ ch ∈ (wordLoop cur chunks words).1, ch.length ≤ SAFE_LIMIT) ∧
        (wordLoop cur chunks words).2.length ≤ SAFE_LIMIT := by
  induction words with
  | nil =>
    intro cur chunks _ hcur hchunks
    exact ⟨hchunks, hcur⟩
  | cons w rest ih =>
    intro cur chunks hw hcur hchunks
    have hwrest : ∀ u ∈ rest, u.length ≤ SAFE_LIMIT :=
      fun u hu => hw u (List.mem_cons_of_mem _ hu)
    have hw0 : w.length ≤ SAFE_LIMIT := hw w (List.mem_cons_self _ _)
    rw [wordLoop]
    by_cases hfit : cur.length + 1 + w.length ≤ SAFE_LIMIT
    · rw [if_pos hfit]
      refine ih _ _ hwrest ?_ hchunks
      by_cases hemp : cur.isEmpty = true
      · rw [if_pos hemp]
        exact hw0
      · rw [if_neg hemp]
        simp only [List.length_append, List.length_cons]
        omega
    · rw [if_neg hfit]
      refine ih _ _ hwrest hw0 ?_
      by_cases hemp : cur.isEmpty = true
      · rw [if_pos hemp]
        exact hchunks
      · rw [if_neg hemp]
        intro ch hch
        rcases List.mem_append.mp hch with h | h
        · exact hchunks ch h
        · rcases List.mem_singleton.mp h with rfl
          exact le_trans (trimChars_length_le cur) hcur

/-- The sentence loop keeps every accumulated chunk and the current chunk within
`SAFE_LIMIT`, provided every word of every sentence fits. -/
theorem sentenceLoop_bound (sentences : List (List Char)) :
    ∀ (cur : List Char) (chunks : List (List Char)),
      (∀ s ∈ sentences, ∀ w ∈ splitWsGo [] s, w.length ≤ SAFE_LIMIT) →
      cur.length ≤ SAFE_LIMIT →
      (∀ ch ∈ chunks, ch.length ≤ SAFE_LIMIT) →
      (∀ ch ∈ (sentenceLoop cur chunks sentences).1, ch.length ≤ SAFE_LIMIT) ∧
        (sentenceLoop cur chunks sentences).2.length ≤ SAFE_LIMIT := by
  induction sentences with
  | nil =>
    intro cur chunks _ hcur hchunks
    exact ⟨hchunks, hcur⟩
  | cons s rest ih =>
    intro cur chunks hs hcur hchunks
    have hsrest : ∀ u ∈ rest, ∀ w ∈ splitWsGo [] u, w.length ≤ SAFE_LIMIT :=
      fun u hu => hs u (List.mem_cons_of_mem _ hu)
    rw [sentenceLoop]
    by_cases hfit : cur.length + s.length ≤ SAFE_LIMIT
    · rw [if_pos hfit]
      refine ih _ _ hsrest ?_ hchunks
      simp only [List.length_append]
      omega
    · rw [if_neg hfit]
      have hchunks1 : ∀ ch ∈ (if cur.isEmpty = true then chunks
          else chunks ++ [trimChars cur]), ch.length ≤ SAFE_LIMIT := by
        by_cases hemp : cur.isEmpty = true
        · rw [if_pos hemp]
          exact hchunks
        · rw [if_neg hemp]
          intro ch hch
          rcases List.mem_append.mp hch with h | h
          · exact hchunks ch h
          · rcases List.mem_singleton.mp h with rfl
            exact le_trans (trimChars_length_le cur) hcur
      by_cases hlong : SAFE_LIMIT < s.length
      · rw [if_pos hlong]
        have hwb := wordLoop_bound (splitWsGo [] s) [] _
          (hs s (List.mem_cons_self _ _)) (by simp) hchunks1
        exact ih _ _ hsrest hwb.2 hwb.1
      · rw [if_neg hlong]
        refine ih _ _ hsrest ?_ hchunks1
        omega

/-- The final truncation `map` of `splitTextIntoChunks` is the identity on chunk
lists already within `SAFE_LIMIT`. -/
theorem map_truncate_id (l : List (List Char))
    (h : ∀ ch ∈ l, ch.length ≤ SAFE_LIMIT) :
    l.map (fun chunk => if SAFE_LIMIT < chunk.length then chunk.take SAFE_LIMIT else chunk) =
      l := by
  induction l with
  | nil => rfl
  | cons c rest ih =>
    rw [List.map_cons,
      if_neg (by have := h c (List.mem_cons_self _ _); omega),
      ih (fun u hu => h u (List.mem_cons_of_mem _ hu))]

set_option maxRecDepth 8000 in
/-- C2 counterexample: `splitTextIntoChunks` drops non-whitespace content. For 280
copies of `a` followed by `". b"`, the sentence regex covers only `aaa…a.` (the
unterminated tail `b` is dropped), and the single 281-character word is
hard-truncated to 279 characters by the final `map`, so the concatenated chunks
lose both the `b` and the trailing `a.` of the sentence. -/
theorem c2_split_not_content_preserving :
    stripWs (splitTextIntoChunks (List.replicate 280 'a' ++ ". b".toList)).flatten ≠
      stripWs (List.replicate 280 'a' ++ ". b".toList) := by
  decide

/-- C2 as amended: `splitTextIntoChunks` preserves the non-whitespace content of
the input provided neither lossy step fires — (a) the sentence regex covers the
whole text (its matches carry all non-whitespace of the input: no unterminated
tail and no leading terminator run is dropped), and (b) every whitespace-delimited
word of every extracted sentence fits in `SAFE_LIMIT`, so the final
hard-truncation is the identity. Inputs that fit in one chunk are returned
verbatim by the first branch. -/
theorem c2_split_content_preserving_when_lossless (text : List Char)
    (hcover : stripWs (sentencesOf text).flatten = stripWs text)
    (hwords : ∀ s ∈ sentencesOf text, ∀ w ∈ splitWsGo [] s, w.length ≤ SAFE_LIMIT) :
    stripWs (splitTextIntoChunks text).flatten = stripWs text := by
  rw [splitTextIntoChunks]
  split
  · simp
  · have hcontent := sentenceLoop_content (sentencesOf text) [] []
    have hbound := sentenceLoop_bound (sentencesOf text) [] [] hwords (by simp) (by simp)
    set r := sentenceLoop [] [] (sentencesOf text) with hrdef
    have hAll : ∀ ch ∈ (if r.2.isEmpty = true then r.1 else r.1 ++ [trimChars r.2]),
        ch.length ≤ SAFE_LIMIT := by
      by_cases hemp : r.2.isEmpty = true
      · rw [if_pos hemp]
        exact hbound.1
      · rw [if_neg hemp]
        intro ch hch
        rcases List.mem_append.mp hch with h | h
        · exact hbound.1 ch h
        · rcases List.mem_singleton.mp h with rfl
          exact le_trans (trimChars_length_le _) hbound.2
    rw [map_truncate_id _ hAll]
    have hflat : stripWs (if r.2.isEmpty = true then r.1
        else r.1 ++ [trimChars r.2]).flatten = stripWs (r.1.flatten ++ r.2) := by
      by_cases hemp : r.2.isEmpty = true
      · rw [if_pos hemp]
        have h2 : r.2 = [] := List.isEmpty_iff.mp hemp
        rw [h2]
        simp
      · rw [if_neg hemp]
        simp [List.flatten_append, stripWs_append, stripWs_trimChars]
    rw [hflat, hcontent]
    simpa using hcover

set_option maxRecDepth 8000 in
/-- Witness for the amended C2: a 300-character text of five short sentences is
split without losing any non-whitespace content. -/
theorem c2_split_content_preserving_when_lossless_witness :
    stripWs (sentencesOf (String.join (List.replicate 5
        "One two three four five six seven eight nine ten el twelve. ")).toList).flatten =
      stripWs (String.join (List.replicate 5
        "One two three four five six seven eight nine ten el twelve. ")).toList ∧
    (∀ s ∈ sentencesOf (String.join (List.replicate 5
        "One two three four five six seven eight nine ten el twelve. ")).toList,
      ∀ w ∈ splitWsGo [] s, w.length ≤ SAFE_LIMIT) ∧
    stripWs (splitTextIntoChunks (String.join (List.replicate 5
        "One two three four five six seven eight nine ten el twelve. ")).toList).flatten =
      stripWs (String.join (List.replicate 5
        "One two three four five six seven eight nine ten el twelve. ")).toList :=
  ⟨by decide, by decide,
    c2_split_content_preserving_when_lossless _ (by decide) (by decide)⟩

/-- Witness for C8: a concrete three-chunk thread with distinct destination
responses, applying the linkage theorem. -/
theorem c8_thread_linkage_witness :
    2 ≤ (["one.".toList, "two.".toList, "three.".toList] : List (List Char)).length ∧
    ((createPostThread Nat (fun k => { uri := toString k, cid := toString k }) (some 5)
        ["one.".toList, "two.".toList, "three.".toList]).length =
      (["one.".toList, "two.".toList, "three.".toList] : List (List Char)).length ∧
    (∀ req, (createPostThread Nat (fun k => { uri := toString k, cid := toString k })
        (some 5) ["one.".toList, "two.".toList, "three.".toList])[0]? = some req →
      req.embed = some 5 ∧ req.reply = none) ∧
    (∀ i req, 0 < i →
      (createPostThread Nat (fun k => { uri := toString k, cid := toString k })
        (some 5) ["one.".toList, "two.".toList, "three.".toList])[i]? = some req →
      req.embed = none ∧
        req.reply = some { root := { uri := toString 0, cid := toString 0 },
                           parent := { uri := toString (i - 1),
                                       cid := toString (i - 1) } })) :=
  ⟨by decide,
    c8_thread_linkage Nat (fun k => { uri := toString k, cid := toString k }) (some 5)
      ["one.".toList, "two.".toList, "three.".toList] (by decide)⟩

end Mirror
